import Mathlib

/-!
Verification of the USB descriptor core of tinyusb-cpp (src/src/USBDescriptor.h).

The source keeps every serialized descriptor record in a process-wide byte
arena (`USBConfigurationDescriptorData`, backed by `Vector<uint8_t>`), with a
typed overlay tree (`USBDevice` / `USBConfiguration` / `USBInterface` /
`USBEndpoint`) whose nodes hold raw pointers into the arena and mutate bytes
in place, and a one-pass TLV parser (`USBConfiguration::parseDescriptor`).

Embedding conventions:
  - raw memory is a total function `Nat → Nat` from byte offsets to byte
    values; every store truncates with `% 256`, mirroring `uint8_t`
    assignment;
  - bytes the source reserves without writing (`addDescriptor(nullptr, n)`
    over storage from `new uint8_t[...]`) are modelled as 0;
  - overlay pointers become byte offsets into the arena (the model arena
    never reallocates, so offsets stay stable);
  - operations whose C++ counterpart would dereference a null pointer
    (capacity failure inside a constructor, out-of-range vector access)
    return `none`.
-/

namespace TinyUsb

/-- Store one byte: `f[i] := v` with `uint8_t` truncation. -/
def writeByte (f : Nat → Nat) (i v : Nat) : Nat → Nat :=
  fun j => if j = i then v % 256 else f j

/-- `memcpy(dest + off, src, n)`: bytes `off .. off+n-1` come from the list
(source bytes past the end of the list are unspecified in C++; we model them
as 0). -/
def writeBytesFrom (f : Nat → Nat) (off : Nat) (src : List Nat) (n : Nat) :
    Nat → Nat :=
  fun i => if off ≤ i ∧ i < off + n then (src.getD (i - off) 0) % 256 else f i

/-- Source: `Vector::grow(int newSize)`, capacity update only: if
`newSize > max_size`, the new capacity is
`((newSize / increment_by) + 1) * increment_by` when `increment_by > 0`,
else exactly `newSize`; otherwise the capacity is unchanged. -/
def Vector.growCapacity (maxSize incrementBy newSize : Nat) : Nat :=
  if newSize > maxSize then
    if incrementBy > 0 then (newSize / incrementBy + 1) * incrementBy
    else newSize
  else maxSize

/-- The descriptor arena: `USBConfigurationDescriptorData` together with its
`Vector<uint8_t>` buffer.  `maxSize` is the vector capacity (`max_size`,
fixed because the buffer is built with increment 0), `length` the used byte
count (`USBConfigurationDescriptorData::length`, zero-initialized as static
storage). -/
structure DescriptorData where
  buf : Nat → Nat
  maxSize : Nat
  length : Nat

/-- Source: `USBConfigurationDescriptorData::addDescriptor(const uint8_t* ptr,
int size_in)`.  When `size_in == 0` the size is taken from `ptr[0]`.  The
capacity check is `checkSize(totalSize() + size_in)`, i.e.
`length + size_in < max_size` (note: `size_in`, not the derived `size`).
On success `size` bytes are copied from `ptr` (no copy when `ptr` is null)
at offset `length`, and `length` advances by `size`.  On failure it returns
`nullptr` and changes nothing. -/
def DescriptorData.addDescriptor (d : DescriptorData) (ptr : Option (List Nat))
    (sizeIn : Nat) : Option (Nat × DescriptorData) :=
  let size := if sizeIn = 0 then (ptr.getD []).headD 0 else sizeIn
  if d.length + sizeIn < d.maxSize then
    let newBuf := match ptr with
      | some src => writeBytesFrom d.buf d.length src size
      | none => d.buf
    some (d.length, ⟨newBuf, d.maxSize, d.length + size⟩)
  else
    none

/-- The used portion of the arena as a byte list (`data()` up to
`totalSize()`). -/
def DescriptorData.dataBytes (d : DescriptorData) : List Nat :=
  (List.range d.length).map d.buf

/-- Source: `USBStrings::add(const char* str)`: `char_array.append(str);
return char_array.size();`.  Strings are byte lists; the return type is
`uint8_t`, so the reported index is the new table size modulo 256. -/
def USBStrings.add (tbl : List (List Nat)) (str : List Nat) :
    Nat × List (List Nat) :=
  ((tbl ++ [str]).length % 256, tbl ++ [str])

/-- Repeated `USBStrings::add` calls starting from table `tbl`. -/
def USBStrings.addAll (tbl : List (List Nat)) : List (List Nat) → List (List Nat)
  | [] => tbl
  | s :: rest => USBStrings.addAll (USBStrings.add tbl s).2 rest

/-- Source: `USBStrings::toUtf(const char *str)`.  The shared scratch buffer
is `uint16_t result[32]` (modelled as a slot function, previous contents
`prev`).  The code caps `len` at 31, writes `result[1+i] = str[i]` for
`i < len`, then stores the two header bytes of slot 0: byte 0 is
`2*len + 2`, byte 1 is `0x03` (little-endian slot value
`(2*len+2) + 256*3`). -/
def USBStrings.toUtf (prev : Nat → Nat) (str : List Nat) : Nat → Nat :=
  let len := min str.length 31
  fun i =>
    if i = 0 then (2 * len + 2) + 256 * 0x03
    else if 1 ≤ i ∧ i < 1 + len then (str.getD (i - 1) 0) % 65536
    else prev i

/-- The wire bytes of a string descriptor held in the `uint16_t` scratch
buffer: little-endian serialization of the slots, truncated to the declared
length (byte 0 of slot 0); this is how the external stack consumes the
returned `uint16_t*`. -/
def utfBytes (slots : Nat → Nat) : List Nat :=
  (List.range (slots 0 % 256)).map fun k =>
    if k % 2 = 0 then slots (k / 2) % 256 else slots (k / 2) / 256 % 256

/-- Reader of the string-descriptor wire format from the spec table
(`String | variable | 0x03 | 0:length 2..:UTF-16 code units`): byte 0 holds
the record length `2*n + 2`, the `n` little-endian 16-bit code units start
at byte 2. -/
def decodeString (b : List Nat) : List Nat :=
  (List.range ((b.getD 0 0 - 2) / 2)).map fun i =>
    b.getD (2 + 2 * i) 0 + 256 * b.getD (3 + 2 * i) 0

/-- Source: `USBStrings::setLanguage(uint16_t lang)` with the default
`DEFAULT_LANGUAGE = 0x0409`, filling `uint16_t language[2]`: byte 0 of
slot 0 is 4, byte 1 is 0x03 (little-endian slot value `4 + 256*3`), slot 1
is the language id. -/
def USBStrings.languageSlots : Nat → Nat := fun i =>
  if i = 0 then 4 + 256 * 0x03
  else if i = 1 then 0x0409
  else 0

/-- Source: `USBStrings::string(int index)`: index 0 returns the fixed
language record, any other index returns `toUtf(get(index))` where
`get(index)` is `char_array[index - 1]` (1-based lookup).  An out-of-range
index makes the vector hand back its `empty` slot, a null `const char*`,
and `toUtf(nullptr)` returns null — modelled as `none`. -/
def USBStrings.string (tbl : List (List Nat)) (prev : Nat → Nat)
    (index : Nat) : Option (Nat → Nat) :=
  if index = 0 then some USBStrings.languageSlots
  else
    match tbl[index - 1]? with
    | some str => some (USBStrings.toUtf prev str)
    | none => none

/-- Source: `USBEndpoint` constructor, field `bEndpointAddress`:
`endpointNumber & 0b00000111 | isInput<7`.  By C++ precedence `<` binds
before `&` and `|`, so this is
`(endpointNumber & 0b00000111) | ((int)isInput < 7)`. -/
def endpointAddressValue (endpointNumber : Nat) (isInput : Bool) : Nat :=
  (endpointNumber &&& 0b00000111) |||
    (if (if isInput then 1 else 0) < 7 then 1 else 0)

/-- Overlay view of one endpoint: the byte offset of its record in the
arena (`USBEndpoint::descriptor_data`). -/
structure USBEndpointM where
  descOff : Nat
deriving DecidableEq

/-- Overlay view of one interface (`USBInterface`): record offset plus the
owned endpoint views (`endpoints`). -/
structure USBInterfaceM where
  descOff : Nat
  endpoints : List USBEndpointM
deriving DecidableEq

/-- One `USBConfiguration`: its `id`, the offset of its record once
materialized (`descriptor_data`, null until the first `descriptor()` call),
and the owned interface views. -/
structure USBConfigurationM where
  id : Nat
  descOff : Option Nat
  interfaces : List USBInterfaceM
deriving DecidableEq

/-- The `USBDevice` singleton: the 18-byte heap device record
(`descriptor_data`, allocated lazily by `descriptor_ptr()`, held outside
the arena) and the configuration list. -/
structure USBDeviceM where
  deviceDesc : Option (Nat → Nat)
  configurations : List USBConfigurationM

/-- Whole-system state: device tree, string table (`USBStrings` singleton)
and descriptor arena (`USBConfigurationDescriptorData` singleton). -/
structure Sys where
  dev : USBDeviceM
  strings : List (List Nat)
  dd : DescriptorData

/-- Fresh state with the arena configured to a total size of `n` bytes
(`Vector<uint8_t>(EMPTY, n, 0)` gives `max_size = n`; the lazily created
default buffer uses `n = 256`). -/
def initSys (n : Nat) : Sys :=
  ⟨⟨none, []⟩, [], ⟨fun _ => 0, n, 0⟩⟩

/-- Defaults written by `USBDevice::descriptor_ptr()` on first use, as the
18 bytes of `tusb_desc_device_t`: length 18, tag 0x01, `bcdUSB = 0x0200`,
classes 0, `bMaxPacketSize0 = 64`, `idVendor = 0`, `idProduct = 0x0001`,
`bcdDevice = 0x0001`, string indices 0, `bNumConfigurations = 0`. -/
def deviceDescriptorDefault : Nat → Nat := fun i =>
  if i = 0 then 18
  else if i = 1 then 0x01
  else if i = 3 then 0x02
  else if i = 7 then 64
  else if i = 10 then 0x01
  else if i = 12 then 0x01
  else 0

/-- Source: `USBDevice::descriptor_ptr()`: allocate and fill the device
record on first use. -/
def Sys.descriptorPtr (s : Sys) : Sys :=
  match s.dev.deviceDesc with
  | some _ => s
  | none => { s with dev := { s.dev with deviceDesc := some deviceDescriptorDefault } }

/-- `configurations[ci]` (null for an out-of-range index). -/
def Sys.getConf (s : Sys) (ci : Nat) : Option USBConfigurationM :=
  s.dev.configurations[ci]?

/-- Replace configuration `ci`. -/
def Sys.setConf (s : Sys) (ci : Nat) (c : USBConfigurationM) : Sys :=
  { s with dev := { s.dev with configurations := s.dev.configurations.set ci c } }

/-- Store one arena byte. -/
def Sys.writeArena (s : Sys) (i v : Nat) : Sys :=
  { s with dd := { s.dd with buf := writeByte s.dd.buf i v } }

/-- `uint8_t` increment of one arena byte (`field++` through an overlay
pointer). -/
def Sys.bumpArena (s : Sys) (i : Nat) : Sys :=
  s.writeArena i (s.dd.buf i + 1)

/-- Source: `USBDevice::createConfiguration()`:
`descriptor_ptr()->bNumConfigurations++` (device record byte 17), then a new
`USBConfiguration(this, configurations.size())` is appended; the new
configuration has no record yet (`descriptor_data` null). -/
def Sys.createConfiguration (s : Sys) : Sys :=
  let s := s.descriptorPtr
  match s.dev.deviceDesc with
  | none => s
  | some f =>
    { s with dev :=
      { deviceDesc := some (writeByte f 17 (f 17 + 1)),
        configurations := s.dev.configurations ++
          [⟨s.dev.configurations.length, none, []⟩] } }

/-- The field writes of `USBConfiguration::descriptor()` on a fresh 9-byte
record at offset `o`, in source order: `bLength = 9`, `bDescriptorType =
0x02`, `bConfigurationValue = id` (offset 5), `iConfiguration = 0` (offset
6), `bmAttributes = 0` (offset 7), `bMaxPower = 50` (offset 8),
`bNumInterfaces = 0` (offset 4).  `wTotalLength` (offsets 2-3) is never
written. -/
def confRecordFill (b : Nat → Nat) (o id : Nat) : Nat → Nat :=
  writeByte (writeByte (writeByte (writeByte (writeByte (writeByte (writeByte b
    (o + 0) 9) (o + 1) 0x02) (o + 5) id) (o + 6) 0) (o + 7) 0) (o + 8) 50)
    (o + 4) 0

/-- The field writes of the `USBInterface` constructor on a fresh 9-byte
record at offset `o`: `bLength = 9`, `bDescriptorType = 0x04`,
`bInterfaceNumber = num` (offset 2), all remaining fields 0. -/
def itfRecordFill (b : Nat → Nat) (o num : Nat) : Nat → Nat :=
  writeByte (writeByte (writeByte (writeByte (writeByte (writeByte (writeByte
    (writeByte (writeByte b
    (o + 0) 9) (o + 1) 0x04) (o + 2) num) (o + 3) 0) (o + 4) 0) (o + 5) 0)
    (o + 6) 0) (o + 7) 0) (o + 8) 0

/-- The field writes of the `USBEndpoint` constructor on a fresh 7-byte
record at offset `o`: `bLength = 7`, `bDescriptorType = 0x05`,
`bEndpointAddress` (offset 2), `bmAttributes` (offset 3, transfer bits with
zero sync/usage bits), `wMaxPacketSize.size = 64` (offsets 4-5),
`bInterval = 1` (offset 6). -/
def epRecordFill (b : Nat → Nat) (o addr xfer : Nat) : Nat → Nat :=
  writeByte (writeByte (writeByte (writeByte (writeByte (writeByte (writeByte b
    (o + 0) 7) (o + 1) 0x05) (o + 2) addr) (o + 3) (xfer &&& 0b11)) (o + 4) 64)
    (o + 5) 0) (o + 6) 1

/-- Source: `USBConfiguration::descriptor()`: if `descriptor_data` is null,
append a 9-byte record (`addDescriptor(nullptr, sizeof)`) and fill it via
`confRecordFill`; return the record offset.  `none` models the null-pointer
write after a capacity failure or an out-of-range configuration index. -/
def Sys.confDescriptorOff (s : Sys) (ci : Nat) : Option (Nat × Sys) :=
  match s.getConf ci with
  | none => none
  | some c =>
    match c.descOff with
    | some o => some (o, s)
    | none =>
      match s.dd.addDescriptor none 9 with
      | none => none
      | some (o, dd) =>
        let s := { s with dd := { dd with buf := confRecordFill dd.buf o c.id } }
        some (o, s.setConf ci { c with descOff := some o })

/-- Source: `USBEndpoint` constructor (builder form): append a 7-byte
record and fill it via `epRecordFill` with `bEndpointAddress` from
`endpointAddressValue`. -/
def Sys.newEndpointRecord (s : Sys) (endpointNumber : Nat) (isInput : Bool)
    (xfer : Nat) : Option (Nat × Sys) :=
  match s.dd.addDescriptor none 7 with
  | none => none
  | some (o, dd) =>
    some (o, { s with dd := { dd with
      buf := epRecordFill dd.buf o (endpointAddressValue endpointNumber isInput) xfer } })

/-- Source: `USBInterface::createEndpoint(bool isInput, TransferType xfer)`
on interface `ii` of configuration `ci`: build a `USBEndpoint` with
`endpointNumber = usbEndpointCount()`, then `descriptor()->bNumEndpoints++`
(interface record offset + 4), then append the endpoint view. -/
def Sys.createEndpoint (s : Sys) (ci ii : Nat) (isInput : Bool) (xfer : Nat) :
    Option Sys :=
  match s.getConf ci with
  | none => none
  | some c =>
    match c.interfaces[ii]? with
    | none => none
    | some itf =>
      match s.newEndpointRecord itf.endpoints.length isInput xfer with
      | none => none
      | some (o, s) =>
        let s := s.bumpArena (itf.descOff + 4)
        match s.getConf ci with
        | none => none
        | some c =>
          let itf2 : USBInterfaceM := { itf with endpoints := itf.endpoints ++ [⟨o⟩] }
          some (s.setConf ci { c with interfaces := c.interfaces.set ii itf2 })

/-- Source: `USBConfiguration::createInterface()`:
`descriptor()->bNumInterfaces++` first (materializing the configuration
record if needed), then the `USBInterface(this, usbInterfaceCount())`
constructor appends a 9-byte record (`itfRecordFill`) and creates the
default control endpoint (`createEndpoint(true, Control)`, transfer code 0,
on the not-yet-registered interface), and finally the interface view is
appended. -/
def Sys.createInterface (s : Sys) (ci : Nat) : Option Sys :=
  match s.confDescriptorOff ci with
  | none => none
  | some (co, s) =>
    let s := s.bumpArena (co + 4)
    match s.getConf ci with
    | none => none
    | some c =>
      match s.dd.addDescriptor none 9 with
      | none => none
      | some (o, dd) =>
        let s := { s with dd := { dd with
          buf := itfRecordFill dd.buf o c.interfaces.length } }
        match s.newEndpointRecord 0 true 0 with
        | none => none
        | some (eo, s) =>
          let s := s.bumpArena (o + 4)
          match s.getConf ci with
          | none => none
          | some c =>
            some (s.setConf ci
              { c with interfaces := c.interfaces ++ [⟨o, [⟨eo⟩]⟩] })

/-- Source: `USBConfiguration::createInterface(tusb_desc_interface_t *data)`
(parser path): attach an interface view over offset `ptrOff` (no record is
appended and no control endpoint is created), then
`descriptor()->bNumInterfaces = interfaces.size()` (materializing the
configuration record if needed). -/
def Sys.createInterfaceFromData (s : Sys) (ci ptrOff : Nat) : Option Sys :=
  match s.getConf ci with
  | none => none
  | some c =>
    let s := s.setConf ci { c with interfaces := c.interfaces ++ [⟨ptrOff, []⟩] }
    match s.confDescriptorOff ci with
    | none => none
    | some (co, s) =>
      match s.getConf ci with
      | none => none
      | some c => some (s.writeArena (co + 4) c.interfaces.length)

/-- Source: `USBInterface::createEndpoint(tusb_desc_endpoint_t *data)`
(parser path): attach an endpoint view over offset `ptrOff`, with
`descriptor()->bNumEndpoints++` writing through the interface overlay into
the bytes being parsed. -/
def Sys.createEndpointFromData (s : Sys) (ci ii ptrOff : Nat) : Option Sys :=
  match s.getConf ci with
  | none => none
  | some c =>
    match c.interfaces[ii]? with
    | none => none
    | some itf =>
      let s := s.bumpArena (itf.descOff + 4)
      match s.getConf ci with
      | none => none
      | some c =>
        let itf2 : USBInterfaceM := { itf with endpoints := itf.endpoints ++ [⟨ptrOff⟩] }
        some (s.setConf ci { c with interfaces := c.interfaces.set ii itf2 })

/-- Source: the scan loop of `USBConfiguration::parseDescriptor`: read
`len = ptr[0]`; while `ptr < end && len > 0`, dispatch on `ptr[1]`
(0x04 creates an interface and makes it current, 0x05 attaches an endpoint
to the current interface if any, anything else is skipped), then advance
`ptr += len`.  `cur` is the index of the current interface (`actual_itf`).
`fuel` only bounds the recursion; callers pass `dataLen + 1`, which
dominates the loop count since every iteration advances the cursor by
`len ≥ 1`. -/
def Sys.parseLoop (s : Sys) (ci : Nat) (cur : Option Nat) (ptr endp : Nat) :
    Nat → Option Sys
  | 0 => some s
  | fuel + 1 =>
    let len := s.dd.buf ptr
    if ptr < endp ∧ 0 < len then
      let t := s.dd.buf (ptr + 1)
      if t = 0x04 then
        match s.getConf ci with
        | none => none
        | some c =>
          match s.createInterfaceFromData ci ptr with
          | none => none
          | some s =>
            s.parseLoop ci (some c.interfaces.length) (ptr + len) endp fuel
      else if t = 0x05 then
        match cur with
        | some ii =>
          match s.createEndpointFromData ci ii ptr with
          | none => none
          | some s => s.parseLoop ci cur (ptr + len) endp fuel
        | none => s.parseLoop ci cur (ptr + len) endp fuel
      else
        s.parseLoop ci cur (ptr + len) endp fuel
    else
      some s

/-- Source: `USBConfiguration::parseDescriptor(uint8_t *data, int data_len)`
with `data` at arena offset `dataOff`.  The function is `void`: it has no
error outcome of its own (a `none` result only models the undefined
behaviour of the helper calls). -/
def Sys.parseDescriptor (s : Sys) (ci dataOff dataLen : Nat) : Option Sys :=
  s.parseLoop ci none dataOff (dataOff + dataLen) (dataLen + 1)

/-- Source: `USBConfiguration::setConfigurationDescriptor(const uint8_t*,
int len, bool parse)`: append the supplied bytes
(`addDescriptor(desc, len)`), point `descriptor_data` at the copy, and
optionally parse it. -/
def Sys.setConfDescriptor (s : Sys) (ci : Nat) (desc : List Nat) (len : Nat)
    (parse : Bool) : Option Sys :=
  match s.getConf ci with
  | none => none
  | some c =>
    match s.dd.addDescriptor (some desc) len with
    | none => none
    | some (o, dd) =>
      let s := Sys.setConf { s with dd := dd } ci { c with descOff := some o }
      if parse then s.parseDescriptor ci o len else some s

/-- Source: `USBDevice::singleConfiguration()`: create configuration 0 when
none exists, else reuse it. -/
def Sys.singleConfiguration (s : Sys) : Sys :=
  if s.dev.configurations.length = 0 then s.createConfiguration else s

/-- Source: `USBDevice::setConfigurationDescriptor(const uint8_t*, int,
bool)`: route through `singleConfiguration()` (configuration 0). -/
def Sys.devSetConfDescriptor (s : Sys) (desc : List Nat) (len : Nat)
    (parse : Bool) : Option Sys :=
  (s.singleConfiguration).setConfDescriptor 0 desc len parse

/-- Source: `USBDevice::configurationDescriptor(int idx)` delegating to
`USBConfiguration::configurationDescriptor()`, which returns the arena data
pointer (`data.data()`); the update of `wTotalLength` is commented out in
the source.  Modelled as the used arena bytes.  `none` models the
out-of-range vector access. -/
def Sys.configurationDescriptor (s : Sys) (idx : Nat) : Option (List Nat) :=
  match s.getConf idx with
  | none => none
  | some _ => some s.dd.dataBytes

/-- Source: `USBEndpoint::wMaxPacketSize(uint16_t val)`: the body is
`descriptor()->bInterval = val` — it assigns the `uint8_t` `bInterval`
field at offset 6 of the endpoint record at `epOff` and returns the node. -/
def Sys.epWMaxPacketSize (s : Sys) (epOff val : Nat) : Sys :=
  s.writeArena (epOff + 6) val

/-- Source: `USBDevice::clear()`: `configurations.clear()`,
`USBStrings::instance().clear()` and
`USBConfigurationDescriptorData::instance().clear()` (which zeroes the used
length; buffer bytes stay in memory).  The heap device record is not
touched. -/
def Sys.clear (s : Sys) : Sys :=
  { dev := { s.dev with configurations := [] },
    strings := [],
    dd := { s.dd with length := 0 } }

/-- `k` successive `createConfiguration()` calls. -/
def Sys.iterCreateConfiguration (s : Sys) : Nat → Sys
  | 0 => s
  | k + 1 => (s.iterCreateConfiguration k).createConfiguration

/-- A builder construction step: `createConfiguration()`,
`createInterface()` on configuration `ci`, or `createEndpoint(isInput,
xfer)` on interface `ii` of configuration `ci`. -/
inductive BuildStep where
  | mkConfiguration : BuildStep
  | mkInterface (ci : Nat) : BuildStep
  | mkEndpoint (ci ii : Nat) (isInput : Bool) (xfer : Nat) : BuildStep
deriving DecidableEq

/-- Apply one builder step. -/
def Sys.applyStep (s : Sys) : BuildStep → Option Sys
  | .mkConfiguration => some s.createConfiguration
  | .mkInterface ci => s.createInterface ci
  | .mkEndpoint ci ii isInput xfer => s.createEndpoint ci ii isInput xfer

/-- Apply a list of builder steps in order. -/
def Sys.applySteps (s : Sys) : List BuildStep → Option Sys
  | [] => some s
  | st :: rest =>
    match s.applyStep st with
    | none => none
    | some t => t.applySteps rest

/-- A record header allowed in the arena by the builder: a 9-byte
Configuration (tag 0x02), a 9-byte Interface (tag 0x04), or a 7-byte
Endpoint (tag 0x05). -/
def goodHdr (len tag : Nat) : Prop :=
  (len = 9 ∧ tag = 2) ∨ (len = 9 ∧ tag = 4) ∨ (len = 7 ∧ tag = 5)

/-- `Chain buf a starts e`: the arena bytes from `a` to `e` form a
back-to-back sequence of records whose start offsets are `starts`, with
`buf[start] = record length` and `buf[start+1] = type tag` for each record
(TLV self-consistency: the length byte is what lets a scan advance). -/
inductive Chain (buf : Nat → Nat) : Nat → List Nat → Nat → Prop
  | nil (e : Nat) : Chain buf e [] e
  | cons (a : Nat) (rest : List Nat) (e : Nat)
      (hh : goodHdr (buf a) (buf (a + 1)))
      (ht : Chain buf (a + buf a) rest e) : Chain buf a (a :: rest) e

/-- Builder invariant: the used arena is a TLV chain; every materialized
configuration record and every interface record lies at a chain start and
keeps its 9-byte length; the heap device record reads length 18 and tag
0x01. -/
def SysInv (s : Sys) (starts : List Nat) : Prop :=
  Chain s.dd.buf 0 starts s.dd.length ∧
  (∀ c ∈ s.dev.configurations, ∀ o, c.descOff = some o →
      o ∈ starts ∧ s.dd.buf o = 9) ∧
  (∀ c ∈ s.dev.configurations, ∀ i ∈ c.interfaces,
      i.descOff ∈ starts ∧ s.dd.buf i.descOff = 9) ∧
  (∀ f, s.dev.deviceDesc = some f → f 0 = 18 ∧ f 1 = 1)

/-! ### Concrete states used by the per-claim evaluations -/

/-- One configuration holding one interface (plus its implicit control
endpoint), built through the builder on a default-sized arena. -/
def c1Built : Sys :=
  (((initSys 256).createConfiguration).createInterface 0).getD (initSys 256)

/-- One configuration, one interface, one extra bulk-in endpoint: arena
layout Configuration at 0, Interface at 9, control Endpoint at 18, extra
Endpoint at 25 (32 bytes in total). -/
def c2Built : Sys :=
  ((((initSys 256).createConfiguration).createInterface 0).bind
    (fun s => s.createEndpoint 0 0 true 2)).getD (initSys 256)

/-- Round trip: the 32 serialized bytes of `c2Built` handed to a fresh
device via `setConfigurationDescriptor(bytes, 32, parse = true)`. -/
def c2Parsed : Option Sys :=
  (initSys 256).devSetConfDescriptor c2Built.dd.dataBytes 32 true

/-- Arena configured to a total size of 10 bytes. -/
def c5Arena : DescriptorData := ⟨fun _ => 0, 10, 0⟩

/-- First append: an explicit 6-byte record. -/
def c5Step1 : Option (Nat × DescriptorData) :=
  c5Arena.addDescriptor (some [6, 1, 2, 3, 4, 5]) 6

/-- Second append: `size_in = 0`, so the size (8 bytes) is taken from the
data, extending the used length from 6 to 14 past the configured size 10. -/
def c5Step2 : Option (Nat × DescriptorData) :=
  ((c5Step1.getD (0, c5Arena)).2).addDescriptor (some [8, 5, 9, 9, 9, 9, 9, 9]) 0

/-- A Configuration record, an Interface record, then a record whose length
byte is 0 (malformed input for the parser), padded to 20 bytes. -/
def c6Bytes : List Nat :=
  [9, 2, 0, 0, 1, 0, 0, 0, 50, 9, 4, 0, 0, 0, 0, 0, 0, 0, 0, 7]

/-- Parsing the malformed chain on a fresh device. -/
def c6Parsed : Option Sys :=
  (initSys 256).devSetConfDescriptor c6Bytes 20 true

/-- The build steps of the witness configuration: one configuration, one
interface, one extra bulk-in endpoint. -/
def c7Steps : List BuildStep :=
  [.mkConfiguration, .mkInterface 0, .mkEndpoint 0 0 true 2]

/-- The state the witness steps produce. -/
def c7State : Sys :=
  ((initSys 256).applySteps c7Steps).getD (initSys 256)

end TinyUsb

namespace TinyUsb

/-! ### Small helper lemmas about byte stores -/

theorem writeByte_same (f : Nat → Nat) (i v : Nat) : writeByte f i v i = v % 256 := by
  simp [writeByte]

theorem writeByte_other (f : Nat → Nat) (i v j : Nat) (h : j ≠ i) :
    writeByte f i v j = f j := by
  simp [writeByte, h]

/-- C1: for a configuration assembled through the builder (one interface,
implicit control endpoint; 25 serialized bytes), the byte sequence returned
by the device-level `configurationDescriptor(0)` query carries the value 0
in the 16-bit total-length field at offset 2 of the Configuration record,
not the serialized chain length 25: the source never writes `wTotalLength`
(the update in `configurationDescriptor` is commented out and
`descriptor()` skips the field), so the claimed equality fails. -/
theorem c1_code_eval :
    (c1Built.configurationDescriptor 0).map
        (fun b => (b.length, b.getD 2 0 + 256 * b.getD 3 0)) = some (25, 0) ∧
    c1Built.dd.length = 25 := by
  constructor
  · rfl
  · rfl

/-- C2: building a Configuration with one Interface and one extra bulk-in
Endpoint, serializing (32 bytes), and re-parsing on a fresh device keeps
the interface count (1) and endpoint count (2), but not the field values:
the parser increments the parsed interface record's `bNumEndpoints` (byte
13 of the chain) once per endpoint record, so it reads 4 after parsing
while the original record reads 2. -/
theorem c2_code_eval :
    (c2Built.dev.configurations.map
        (fun c => c.interfaces.map (fun i => i.endpoints.length))) = [[2]] ∧
    c2Built.dd.buf 13 = 2 ∧
    (c2Parsed.map (fun s => s.dev.configurations.map
        (fun c => c.interfaces.map (fun i => i.endpoints.length)))) = some [[2]] ∧
    (c2Parsed.map (fun s => s.dd.buf 13)) = some 4 := by
  refine ⟨rfl, rfl, rfl, rfl⟩

/-- C3: the stored `bEndpointAddress` byte is
`(endpointNumber & 0b111) | (isInput < 7)`, where the comparison (not a
shift) is always 1; endpoint 1 with direction in therefore yields 0x01,
not the claimed 0x81, and endpoint 9 loses bit 3.  The last conjunct reads
the byte of the built bulk-in endpoint record (offset 25 + 2) of
`c2Built`. -/
theorem c3_code_eval :
    endpointAddressValue 1 true = 0x01 ∧
    endpointAddressValue 1 true ≠ 0x81 ∧
    endpointAddressValue 1 false = 0x01 ∧
    endpointAddressValue 9 true = 0x01 ∧
    c2Built.dd.buf 27 = 0x01 := by
  refine ⟨rfl, by decide, rfl, by decide, rfl⟩

/-- C4: calling the max-packet-size setter with 512 on the endpoint record
at offset 25 of `c2Built` leaves the 2-byte `wMaxPacketSize` field at
offset 4 unchanged (bytes 29-30 still 64, 0) and instead overwrites the
`bInterval` byte at offset 6 (byte 31: 1 before, 512 mod 256 = 0 after):
the setter body assigns `descriptor()->bInterval = val`. -/
theorem c4_code_eval :
    (c2Built.epWMaxPacketSize 25 512).dd.buf 29 = 64 ∧
    (c2Built.epWMaxPacketSize 25 512).dd.buf 30 = 0 ∧
    c2Built.dd.buf 31 = 1 ∧
    (c2Built.epWMaxPacketSize 25 512).dd.buf 31 = 0 := by
  refine ⟨rfl, rfl, rfl, rfl⟩

/-- C5: on an arena configured to 10 bytes holding 6 bytes, an append with
declared size 0 (size taken from the data, here 8) passes the capacity
check `length + size_in < max_size`, copies all 8 bytes and advances the
used length to 14 > 10: it succeeds instead of failing, and bytes below
offset 10 (offsets 6 and 9, previously 0) are overwritten. -/
theorem c5_code_eval :
    (c5Step1.map (fun p => (p.2.length, p.2.buf 6, p.2.buf 9))) = some (6, 0, 0) ∧
    (c5Step2.map (fun p => (p.1, p.2.length, p.2.buf 6, p.2.buf 9))) =
      some (6, 14, 8, 9) := by
  refine ⟨rfl, rfl⟩

/-- C6: parsing a chain that reaches a record with length byte 0 before the
supplied end (offset 18 of the 20-byte `c6Bytes`) returns normally — the
scan loop condition `ptr < end && len > 0` simply stops, the operation has
no error outcome, and the partially built tree (one interface, no
endpoints) is left in place as the result. -/
theorem c6_code_eval :
    (c6Parsed.map (fun s =>
        (s.dd.length,
         s.dev.configurations.map
           (fun c => c.interfaces.map (fun i => i.endpoints.length))))) =
      some (20, [[0]]) ∧
    c6Bytes.getD 18 0 = 0 ∧ (18 : Nat) < 20 := by
  refine ⟨rfl, rfl, by decide⟩

/-- C8 counterexample: with growth increment 16 and a request of 16 bytes
against capacity 0, the code yields capacity 32, although the smallest
multiple of 16 that is greater than or equal to 16 is 16 itself — the
claimed rounding rule fails whenever the request is already a multiple of
the increment. -/
theorem c8_counterexample :
    Vector.growCapacity 0 16 16 = 32 ∧
    Vector.growCapacity 0 16 16 ≠ 16 ∧ 16 % 16 = 0 := by
  refine ⟨rfl, by decide, rfl⟩

/-- C8 (amended): for a growth increment g > 0 and a requested size n above
the current capacity, `Vector::grow` sets the capacity to
`(n / g + 1) * g` — the smallest multiple of g that is strictly greater
than n (so a request of 20 with g = 16 yields exactly 32, never 20; but a
request equal to a multiple of g is rounded one increment further). -/
theorem c8_growth_rounding (g n cap : Nat) (hg : 0 < g) (hn : cap < n) :
    Vector.growCapacity cap g n = (n / g + 1) * g ∧
    n < Vector.growCapacity cap g n ∧
    Vector.growCapacity cap g n % g = 0 ∧
    ∀ m, m % g = 0 → n < m → Vector.growCapacity cap g n ≤ m := by
  have hval : Vector.growCapacity cap g n = (n / g + 1) * g := by
    unfold Vector.growCapacity
    rw [if_pos hn, if_pos hg]
  refine ⟨hval, ?_, ?_, ?_⟩
  · rw [hval]
    exact (Nat.div_lt_iff_lt_mul hg).mp (Nat.lt_succ_self _)
  · rw [hval]
    exact Nat.mul_mod_left _ _
  · intro m hm hnm
    rw [hval]
    obtain ⟨k, hk⟩ := Nat.dvd_of_mod_eq_zero hm
    subst hk
    have hdiv : n / g < k := by
      rw [Nat.div_lt_iff_lt_mul hg, Nat.mul_comm]
      exact hnm
    rw [Nat.mul_comm g k]
    exact Nat.mul_le_mul_right g hdiv

/-- C8 witness: growing from capacity 0 with increment 16 to a requested
size of 20 yields capacity 32. -/
theorem c8_growth_rounding_witness : Vector.growCapacity 0 16 20 = 32 := by
  have h := (c8_growth_rounding 16 20 0 (by decide) (by decide)).1
  simpa using h

end TinyUsb

namespace TinyUsb

/-! ### String table (C9) -/

theorem getD_map_range (g : Nat → Nat) (m k : Nat) (h : k < m) :
    ((List.range m).map g).getD k 0 = g k := by
  rw [List.getD_eq_getElem _ 0 (by simpa using h)]
  simp

theorem addAll_length (l : List (List Nat)) :
    ∀ tbl, (USBStrings.addAll tbl l).length = tbl.length + l.length := by
  induction l with
  | nil => intro tbl; simp [USBStrings.addAll]
  | cons s rest ih =>
    intro tbl
    rw [USBStrings.addAll, ih]
    simp [USBStrings.add]
    omega

/-- C9 counterexample: after 255 adds, the 256-th `add` call returns 0, not
the claimed index 256 — the return type is `uint8_t`, so the reported index
wraps modulo 256. -/
theorem c9_counterexample :
    (USBStrings.add (USBStrings.addAll [] (List.replicate 255 [65])) [66]).1 = 0 ∧
    (USBStrings.add (USBStrings.addAll [] (List.replicate 255 [65])) [66]).1 ≠ 256 := by
  have hgen : ∀ (tbl : List (List Nat)) (str : List Nat),
      (USBStrings.add tbl str).1 = (tbl.length + 1) % 256 := by
    intro tbl str
    simp [USBStrings.add]
  have h : (USBStrings.add (USBStrings.addAll [] (List.replicate 255 [65])) [66]).1 = 0 := by
    rw [hgen, addAll_length]
    simp only [List.length_replicate, List.length_nil]
  exact ⟨h, by rw [h]; decide⟩

/-- C9 (amended): the i-th `add` call returns the new table size modulo 256
(equal to i for the first 255 calls), indices assigned in insertion order
with no deduplication; and for every 1-based index `i` whose table entry is
the ASCII text `t`, encoding index `i` (`string(i)` = `toUtf(get(i))` with
`get(i) = char_array[i-1]`) produces the wire record whose byte 0 is
`2*min(len(t),31) + 2`, byte 1 is 0x03, and whose UTF-16 code units decode
back to the first `min(len(t),31)` characters of `t` — all of `t` when `t`
has at most 31 characters. -/
theorem c9_strings :
    (∀ (tbl : List (List Nat)) (str : List Nat),
        (USBStrings.add tbl str).1 = (tbl.length + 1) % 256) ∧
    (∀ (tbl : List (List Nat)) (prev : Nat → Nat) (i : Nat) (t : List Nat),
        1 ≤ i → tbl[i - 1]? = some t → (∀ c ∈ t, c < 128) →
        USBStrings.string tbl prev i = some (USBStrings.toUtf prev t) ∧
        (utfBytes (USBStrings.toUtf prev t)).getD 0 0 =
          2 * min t.length 31 + 2 ∧
        (utfBytes (USBStrings.toUtf prev t)).getD 1 0 = 0x03 ∧
        decodeString (utfBytes (USBStrings.toUtf prev t)) = t.take 31 ∧
        (t.length ≤ 31 →
          decodeString (utfBytes (USBStrings.toUtf prev t)) = t)) := by
  constructor
  · intro tbl str
    simp [USBStrings.add]
  · intro tbl prev i t hi hlook hascii
    have hstring : USBStrings.string tbl prev i =
        some (USBStrings.toUtf prev t) := by
      unfold USBStrings.string
      rw [if_neg (by omega), hlook]
    have hL31 : min t.length 31 ≤ 31 := Nat.min_le_right _ _
    have hLt : min t.length 31 ≤ t.length := Nat.min_le_left _ _
    have hslot0 : USBStrings.toUtf prev t 0 =
        (2 * min t.length 31 + 2) + 256 * 3 := by
      simp [USBStrings.toUtf]
    have hm : USBStrings.toUtf prev t 0 % 256 = 2 * min t.length 31 + 2 := by
      rw [hslot0]
      omega
    have hslotC : ∀ j, j < min t.length 31 →
        USBStrings.toUtf prev t (1 + j) = t.getD j 0 := by
      intro j hj
      have hjt : j < t.length := by omega
      have hc : t.getD j 0 < 128 := by
        have hmem : t.getD j 0 ∈ t := by
          rw [List.getD_eq_getElem _ _ hjt]
          exact List.getElem_mem _
        exact hascii _ hmem
      simp only [USBStrings.toUtf]
      rw [if_neg (by omega),
        if_pos (by omega : 1 ≤ 1 + j ∧ 1 + j < 1 + min t.length 31)]
      simp only [Nat.add_sub_cancel_left]
      omega
    have hbyte : ∀ k, k < 2 * min t.length 31 + 2 →
        (utfBytes (USBStrings.toUtf prev t)).getD k 0 =
          (if k % 2 = 0 then USBStrings.toUtf prev t (k / 2) % 256
           else USBStrings.toUtf prev t (k / 2) / 256 % 256) := by
      intro k hk
      unfold utfBytes
      rw [hm]
      exact getD_map_range _ _ _ hk
    have hb0 : (utfBytes (USBStrings.toUtf prev t)).getD 0 0 =
        2 * min t.length 31 + 2 := by
      rw [hbyte 0 (by omega), if_pos (by omega : (0 : Nat) % 2 = 0)]
      simpa using hm
    have hb1 : (utfBytes (USBStrings.toUtf prev t)).getD 1 0 = 3 := by
      rw [hbyte 1 (by omega), if_neg (by omega : ¬ ((1 : Nat) % 2 = 0))]
      norm_num
      rw [hslot0]
      omega
    have hdec : decodeString (utfBytes (USBStrings.toUtf prev t)) =
        t.take 31 := by
      unfold decodeString
      rw [hb0]
      have hn : (2 * min t.length 31 + 2 - 2) / 2 = min t.length 31 := by omega
      rw [hn]
      apply List.ext_getElem
      · simp [Nat.min_comm]
      · intro j h1 h2
        have hj : j < min t.length 31 := by simpa using h1
        have hjt : j < t.length := by omega
        have e2 : (2 + 2 * j) / 2 = 1 + j := by omega
        have e3 : (3 + 2 * j) / 2 = 1 + j := by omega
        have hc : t.getD j 0 < 128 := by
          have hmem : t.getD j 0 ∈ t := by
            rw [List.getD_eq_getElem _ _ hjt]
            exact List.getElem_mem _
          exact hascii _ hmem
        have hv2 : (utfBytes (USBStrings.toUtf prev t)).getD (2 + 2 * j) 0 =
            t.getD j 0 := by
          rw [hbyte (2 + 2 * j) (by omega),
            if_pos (by omega : (2 + 2 * j) % 2 = 0), e2, hslotC j hj]
          omega
        have hv3 : (utfBytes (USBStrings.toUtf prev t)).getD (3 + 2 * j) 0 =
            0 := by
          rw [hbyte (3 + 2 * j) (by omega),
            if_neg (by omega : ¬ ((3 + 2 * j) % 2 = 0)), e3, hslotC j hj]
          omega
        simp only [List.getElem_map, List.getElem_range]
        rw [hv2, hv3, List.getElem_take t, List.getD_eq_getElem _ _ hjt]
        omega
    refine ⟨hstring, hb0, hb1, hdec, ?_⟩
    intro hle
    rw [hdec]
    exact List.take_of_length_le hle

/-- C9 witness: a table holding Alpha then Beta (indices 1 and 2 reported
by `add`); encoding index 1 resolves to entry 0 (Alpha) and its record
decodes back to Alpha. -/
theorem c9_strings_witness :
    (USBStrings.add [] [65, 108, 112, 104, 97]).1 = 1 ∧
    (USBStrings.add [[65, 108, 112, 104, 97]] [66, 101, 116, 97]).1 = 2 ∧
    USBStrings.string [[65, 108, 112, 104, 97], [66, 101, 116, 97]]
      (fun _ => 0) 1 =
      some (USBStrings.toUtf (fun _ => 0) [65, 108, 112, 104, 97]) ∧
    decodeString (utfBytes
        (USBStrings.toUtf (fun _ => 0) [65, 108, 112, 104, 97])) =
      [65, 108, 112, 104, 97] := by
  obtain ⟨hstring, hb0, hb1, hdec31, hdec⟩ :=
    c9_strings.2 [[65, 108, 112, 104, 97], [66, 101, 116, 97]] (fun _ => 0) 1
      [65, 108, 112, 104, 97] (by decide) (by decide) (by decide)
  refine ⟨?_, ?_, hstring, hdec (by decide)⟩
  · have h := c9_strings.1 [] [65, 108, 112, 104, 97]
    simpa using h
  · have h := c9_strings.1 [[65, 108, 112, 104, 97]] [66, 101, 116, 97]
    simpa using h


/-! ### Device clear (C10) -/

theorem iterCreate_spec (n k : Nat) :
    ((initSys n).iterCreateConfiguration k).dev.configurations.length = k ∧
    (∀ f, ((initSys n).iterCreateConfiguration k).dev.deviceDesc = some f →
        f 17 = k % 256) ∧
    (((initSys n).iterCreateConfiguration k).dev.deviceDesc = none → k = 0) := by
  induction k with
  | zero =>
    refine ⟨rfl, ?_, fun _ => rfl⟩
    intro f hf
    simp [Sys.iterCreateConfiguration, initSys] at hf
  | succ k ih =>
    obtain ⟨ihl, ihf, ihn⟩ := ih
    cases hd : ((initSys n).iterCreateConfiguration k).dev.deviceDesc with
    | none =>
      have hk0 : k = 0 := ihn hd
      refine ⟨?_, ?_, ?_⟩
      · show (((initSys n).iterCreateConfiguration k).createConfiguration).dev.configurations.length = k + 1
        simp only [Sys.createConfiguration, Sys.descriptorPtr, hd]
        simp [ihl]
      · intro f hf
        simp only [Sys.iterCreateConfiguration, Sys.createConfiguration,
          Sys.descriptorPtr, hd] at hf
        simp only [Option.some.injEq] at hf
        subst hf
        rw [writeByte_same]
        subst hk0
        rfl
      · intro hcontra
        simp only [Sys.iterCreateConfiguration, Sys.createConfiguration,
          Sys.descriptorPtr, hd] at hcontra
        exact absurd hcontra (by simp)
    | some f =>
      have h17 := ihf f hd
      refine ⟨?_, ?_, ?_⟩
      · show (((initSys n).iterCreateConfiguration k).createConfiguration).dev.configurations.length = k + 1
        simp only [Sys.createConfiguration, Sys.descriptorPtr, hd]
        simp [ihl]
      · intro g hg
        simp only [Sys.iterCreateConfiguration, Sys.createConfiguration,
          Sys.descriptorPtr, hd] at hg
        simp only [Option.some.injEq] at hg
        subst hg
        rw [writeByte_same, h17]
        omega
      · intro hcontra
        simp only [Sys.iterCreateConfiguration, Sys.createConfiguration,
          Sys.descriptorPtr, hd] at hcontra
        exact absurd hcontra (by simp)

/-- C10: after `clear()` on a device that created `k < 256` configurations,
the 18-byte heap device record is the very same (byte-for-byte unchanged),
the configuration list and string table are empty and the arena length is
0, while the device record's `bNumConfigurations` byte (offset 17) still
reads `k`. -/
theorem c10_clear_frame (n k : Nat) (hk : k < 256) :
    (((initSys n).iterCreateConfiguration k).clear).dev.deviceDesc =
      ((initSys n).iterCreateConfiguration k).dev.deviceDesc ∧
    ((initSys n).iterCreateConfiguration k).dev.configurations.length = k ∧
    (((initSys n).iterCreateConfiguration k).clear).dev.configurations = [] ∧
    (((initSys n).iterCreateConfiguration k).clear).strings = [] ∧
    (((initSys n).iterCreateConfiguration k).clear).dd.length = 0 ∧
    ∀ f, (((initSys n).iterCreateConfiguration k).clear).dev.deviceDesc = some f →
      f 17 = k := by
  obtain ⟨hl, hf, _⟩ := iterCreate_spec n k
  refine ⟨rfl, hl, rfl, rfl, rfl, ?_⟩
  intro f hsome
  have : ((initSys n).iterCreateConfiguration k).dev.deviceDesc = some f := hsome
  have h17 := hf f this
  rw [Nat.mod_eq_of_lt hk] at h17
  exact h17

/-- C10 witness: three configurations created, then cleared. -/
theorem c10_clear_frame_witness :
    ((initSys 256).iterCreateConfiguration 3).dev.configurations.length = 3 ∧
    (((initSys 256).iterCreateConfiguration 3).clear).dev.configurations = [] ∧
    (((initSys 256).iterCreateConfiguration 3).clear).dd.length = 0 :=
  ⟨(c10_clear_frame 256 3 (by decide)).2.1,
   (c10_clear_frame 256 3 (by decide)).2.2.1,
   (c10_clear_frame 256 3 (by decide)).2.2.2.2.1⟩

end TinyUsb

namespace TinyUsb

/-! ### TLV chain facts (C7) -/

theorem goodHdr_len_ge (len tag : Nat) (h : goodHdr len tag) : 7 ≤ len := by
  rcases h with ⟨h1, _⟩ | ⟨h1, _⟩ | ⟨h1, _⟩ <;> omega

theorem chain_start_le (buf : Nat → Nat) (a e : Nat) (l : List Nat)
    (h : Chain buf a l e) : a ≤ e := by
  induction h with
  | nil e2 => exact Nat.le_refl _
  | cons a rest e2 hh ht ih => exact Nat.le_trans (Nat.le_add_right a _) ih

theorem chain_mem_facts (buf : Nat → Nat) (a e : Nat) (l : List Nat)
    (h : Chain buf a l e) :
    ∀ o ∈ l, a ≤ o ∧ o + buf o ≤ e ∧ goodHdr (buf o) (buf (o + 1)) := by
  induction h with
  | nil e2 => intro o ho; exact absurd ho (List.not_mem_nil o)
  | cons a rest e2 hh ht ih =>
    intro o ho
    rcases List.mem_cons.mp ho with rfl | hmem
    · exact ⟨Nat.le_refl _, chain_start_le _ _ _ _ ht, hh⟩
    · obtain ⟨h1, h2, h3⟩ := ih o hmem
      exact ⟨Nat.le_trans (Nat.le_add_right _ _) h1, h2, h3⟩

theorem chain_mem_lt_end (buf : Nat → Nat) (e : Nat) (l : List Nat) (q : Nat)
    (h : Chain buf 0 l e) (hq : q ∈ l) : q + 1 < e := by
  obtain ⟨_, h2, h3⟩ := chain_mem_facts _ _ _ _ h q hq
  have hlen := goodHdr_len_ge _ _ h3
  omega

theorem chain_congr (buf buf2 : Nat → Nat) (a e : Nat) (l : List Nat)
    (hlow : ∀ i, i < e → buf2 i = buf i)
    (h : Chain buf a l e) : Chain buf2 a l e := by
  induction h with
  | nil e2 => exact Chain.nil e2
  | cons a rest e2 hh ht ih =>
    have hae : a + buf a ≤ e2 := chain_start_le _ _ _ _ ht
    have hlen : 7 ≤ buf a := goodHdr_len_ge _ _ hh
    have h0 : buf2 a = buf a := hlow a (by omega)
    have h1 : buf2 (a + 1) = buf (a + 1) := hlow (a + 1) (by omega)
    refine Chain.cons a rest e2 ?_ ?_
    · rw [h0, h1]; exact hh
    · rw [h0]; exact ih hlow

theorem chain_snoc (buf : Nat → Nat) (a e : Nat) (l : List Nat)
    (h : Chain buf a l e) :
    goodHdr (buf e) (buf (e + 1)) → Chain buf a (l ++ [e]) (e + buf e) := by
  induction h with
  | nil e2 =>
    intro hh
    exact Chain.cons e2 [] _ hh (Chain.nil _)
  | cons a rest e2 hh2 ht ih =>
    intro hh
    exact Chain.cons a (rest ++ [e2]) _ hh2 (ih hh)

theorem chain_write_nonhdr (buf : Nat → Nat) (a e x v : Nat) (l : List Nat)
    (h : Chain buf a l e) :
    (∀ q ∈ l, x ≠ q ∧ x ≠ q + 1) → Chain (writeByte buf x v) a l e := by
  induction h with
  | nil e2 => intro hx; exact Chain.nil e2
  | cons a rest e2 hh ht ih =>
    intro hx
    have hxa := hx a (List.mem_cons_self a rest)
    have h0 : writeByte buf x v a = buf a :=
      writeByte_other _ _ _ _ (Ne.symm hxa.1)
    have h1 : writeByte buf x v (a + 1) = buf (a + 1) :=
      writeByte_other _ _ _ _ (Ne.symm hxa.2)
    refine Chain.cons a rest e2 ?_ ?_
    · rw [h0, h1]; exact hh
    · rw [h0]; exact ih (fun q hq => hx q (List.mem_cons_of_mem a hq))

theorem chain_sep (buf : Nat → Nat) (a e : Nat) (l : List Nat)
    (h : Chain buf a l e) :
    ∀ o ∈ l, ∀ q ∈ l, o ≠ q → o + buf o ≤ q ∨ q + buf q ≤ o := by
  induction h with
  | nil e2 => intro o ho; exact absurd ho (List.not_mem_nil o)
  | cons a rest e2 hh ht ih =>
    intro o ho q hq hne
    have htail : ∀ r ∈ rest, a + buf a ≤ r := by
      intro r hr
      exact (chain_mem_facts _ _ _ _ ht r hr).1
    rcases List.mem_cons.mp ho with rfl | ho2
    · rcases List.mem_cons.mp hq with rfl | hq2
      · exact absurd rfl hne
      · exact Or.inl (htail q hq2)
    · rcases List.mem_cons.mp hq with rfl | hq2
      · exact Or.inr (htail o ho2)
      · exact ih o ho2 q hq2 hne

theorem chain_bump_safe (buf : Nat → Nat) (e : Nat) (l : List Nat) (o : Nat)
    (h : Chain buf 0 l e) (ho : o ∈ l) :
    ∀ q ∈ l, o + 4 ≠ q ∧ o + 4 ≠ q + 1 := by
  intro q hq
  by_cases hoq : o = q
  · subst hoq; omega
  · have hsep := chain_sep _ _ _ _ h o ho q hq hoq
    have hbo : 7 ≤ buf o := goodHdr_len_ge _ _ (chain_mem_facts _ _ _ _ h o ho).2.2
    have hbq : 7 ≤ buf q := goodHdr_len_ge _ _ (chain_mem_facts _ _ _ _ h q hq).2.2
    rcases hsep with h1 | h1 <;> omega

theorem chain_bump (buf : Nat → Nat) (e v : Nat) (l : List Nat) (o : Nat)
    (h : Chain buf 0 l e) (ho : o ∈ l) :
    Chain (writeByte buf (o + 4) v) 0 l e :=
  chain_write_nonhdr _ _ _ _ _ _ h (chain_bump_safe _ _ _ _ h ho)

theorem chain_extend (buf buf2 : Nat → Nat) (e len tag : Nat) (l : List Nat)
    (hch : Chain buf 0 l e)
    (hlow : ∀ i, i < e → buf2 i = buf i)
    (h0 : buf2 e = len) (h1 : buf2 (e + 1) = tag)
    (hgood : goodHdr len tag) :
    Chain buf2 0 (l ++ [e]) (e + len) := by
  have hc2 : Chain buf2 0 l e := chain_congr _ _ _ _ _ hlow hch
  have hs := chain_snoc _ _ _ _ hc2 (by rw [h0, h1]; exact hgood)
  rwa [h0] at hs

/-! ### Record-fill evaluation lemmas -/

theorem confRecordFill_low (b : Nat → Nat) (o id i : Nat) (h : i < o) :
    confRecordFill b o id i = b i := by
  unfold confRecordFill
  rw [writeByte_other _ _ _ _ (by omega), writeByte_other _ _ _ _ (by omega),
    writeByte_other _ _ _ _ (by omega), writeByte_other _ _ _ _ (by omega),
    writeByte_other _ _ _ _ (by omega), writeByte_other _ _ _ _ (by omega),
    writeByte_other _ _ _ _ (by omega)]

theorem confRecordFill_at0 (b : Nat → Nat) (o id : Nat) :
    confRecordFill b o id o = 9 := by
  unfold confRecordFill
  rw [writeByte_other _ _ _ _ (by omega), writeByte_other _ _ _ _ (by omega),
    writeByte_other _ _ _ _ (by omega), writeByte_other _ _ _ _ (by omega),
    writeByte_other _ _ _ _ (by omega), writeByte_other _ _ _ _ (by omega)]
  simp [writeByte]

theorem confRecordFill_at1 (b : Nat → Nat) (o id : Nat) :
    confRecordFill b o id (o + 1) = 2 := by
  unfold confRecordFill
  rw [writeByte_other _ _ _ _ (by omega), writeByte_other _ _ _ _ (by omega),
    writeByte_other _ _ _ _ (by omega), writeByte_other _ _ _ _ (by omega),
    writeByte_other _ _ _ _ (by omega), writeByte_same]

theorem itfRecordFill_low (b : Nat → Nat) (o num i : Nat) (h : i < o) :
    itfRecordFill b o num i = b i := by
  unfold itfRecordFill
  rw [writeByte_other _ _ _ _ (by omega), writeByte_other _ _ _ _ (by omega),
    writeByte_other _ _ _ _ (by omega), writeByte_other _ _ _ _ (by omega),
    writeByte_other _ _ _ _ (by omega), writeByte_other _ _ _ _ (by omega),
    writeByte_other _ _ _ _ (by omega), writeByte_other _ _ _ _ (by omega),
    writeByte_other _ _ _ _ (by omega)]

theorem itfRecordFill_at0 (b : Nat → Nat) (o num : Nat) :
    itfRecordFill b o num o = 9 := by
  unfold itfRecordFill
  rw [writeByte_other _ _ _ _ (by omega), writeByte_other _ _ _ _ (by omega),
    writeByte_other _ _ _ _ (by omega), writeByte_other _ _ _ _ (by omega),
    writeByte_other _ _ _ _ (by omega), writeByte_other _ _ _ _ (by omega),
    writeByte_other _ _ _ _ (by omega), writeByte_other _ _ _ _ (by omega)]
  simp [writeByte]

theorem itfRecordFill_at1 (b : Nat → Nat) (o num : Nat) :
    itfRecordFill b o num (o + 1) = 4 := by
  unfold itfRecordFill
  rw [writeByte_other _ _ _ _ (by omega), writeByte_other _ _ _ _ (by omega),
    writeByte_other _ _ _ _ (by omega), writeByte_other _ _ _ _ (by omega),
    writeByte_other _ _ _ _ (by omega), writeByte_other _ _ _ _ (by omega),
    writeByte_other _ _ _ _ (by omega), writeByte_same]

theorem epRecordFill_low (b : Nat → Nat) (o addr xfer i : Nat) (h : i < o) :
    epRecordFill b o addr xfer i = b i := by
  unfold epRecordFill
  rw [writeByte_other _ _ _ _ (by omega), writeByte_other _ _ _ _ (by omega),
    writeByte_other _ _ _ _ (by omega), writeByte_other _ _ _ _ (by omega),
    writeByte_other _ _ _ _ (by omega), writeByte_other _ _ _ _ (by omega),
    writeByte_other _ _ _ _ (by omega)]

theorem epRecordFill_at0 (b : Nat → Nat) (o addr xfer : Nat) :
    epRecordFill b o addr xfer o = 7 := by
  unfold epRecordFill
  rw [writeByte_other _ _ _ _ (by omega), writeByte_other _ _ _ _ (by omega),
    writeByte_other _ _ _ _ (by omega), writeByte_other _ _ _ _ (by omega),
    writeByte_other _ _ _ _ (by omega), writeByte_other _ _ _ _ (by omega)]
  simp [writeByte]

theorem epRecordFill_at1 (b : Nat → Nat) (o addr xfer : Nat) :
    epRecordFill b o addr xfer (o + 1) = 5 := by
  unfold epRecordFill
  rw [writeByte_other _ _ _ _ (by omega), writeByte_other _ _ _ _ (by omega),
    writeByte_other _ _ _ _ (by omega), writeByte_other _ _ _ _ (by omega),
    writeByte_other _ _ _ _ (by omega), writeByte_same]

theorem addDescriptor_none9 (d : DescriptorData) (o : Nat) (d2 : DescriptorData)
    (h : d.addDescriptor none 9 = some (o, d2)) :
    o = d.length ∧ d2.buf = d.buf ∧ d2.length = d.length + 9 ∧
      d2.maxSize = d.maxSize := by
  unfold DescriptorData.addDescriptor at h
  norm_num at h
  obtain ⟨_, h1, h2⟩ := h
  exact ⟨h1.symm, by rw [← h2], by rw [← h2], by rw [← h2]⟩

theorem addDescriptor_none7 (d : DescriptorData) (o : Nat) (d2 : DescriptorData)
    (h : d.addDescriptor none 7 = some (o, d2)) :
    o = d.length ∧ d2.buf = d.buf ∧ d2.length = d.length + 7 ∧
      d2.maxSize = d.maxSize := by
  unfold DescriptorData.addDescriptor at h
  norm_num at h
  obtain ⟨_, h1, h2⟩ := h
  exact ⟨h1.symm, by rw [← h2], by rw [← h2], by rw [← h2]⟩

end TinyUsb

namespace TinyUsb

/-! ### Builder-invariant preservation (C7) -/

theorem newEndpointRecord_spec (s : Sys) (num : Nat) (isInput : Bool)
    (xfer : Nat) (eo : Nat) (t : Sys)
    (h : s.newEndpointRecord num isInput xfer = some (eo, t)) :
    eo = s.dd.length ∧
    t = { s with dd := ⟨epRecordFill s.dd.buf s.dd.length
            (endpointAddressValue num isInput) xfer,
          s.dd.maxSize, s.dd.length + 7⟩ } := by
  unfold Sys.newEndpointRecord at h
  cases hadd : s.dd.addDescriptor none 7 with
  | none => rw [hadd] at h; exact absurd h (by simp)
  | some p =>
    obtain ⟨o2, dd2⟩ := p
    rw [hadd] at h
    obtain ⟨ho, hbuf, hlen, hmax⟩ := addDescriptor_none7 _ _ _ hadd
    simp only [Option.some.injEq, Prod.mk.injEq] at h
    obtain ⟨heo, ht⟩ := h
    subst heo
    subst ho
    refine ⟨rfl, ?_⟩
    rw [← ht]
    congr 1
    rw [hbuf, hlen, hmax]

theorem inv_createConfiguration (s : Sys) (starts : List Nat)
    (hinv : SysInv s starts) : SysInv s.createConfiguration starts := by
  obtain ⟨hch, hconf, hitf, hdev⟩ := hinv
  cases hd : s.dev.deviceDesc with
  | none =>
    refine ⟨?_, ?_, ?_, ?_⟩ <;>
      simp only [Sys.createConfiguration, Sys.descriptorPtr, hd]
    · exact hch
    · intro c hc o ho
      rcases List.mem_append.mp hc with hold | hnew
      · exact hconf c hold o ho
      · simp only [List.mem_singleton] at hnew
        rw [hnew] at ho
        simp at ho
    · intro c hc i hi
      rcases List.mem_append.mp hc with hold | hnew
      · exact hitf c hold i hi
      · simp only [List.mem_singleton] at hnew
        rw [hnew] at hi
        simp at hi
    · intro f hf
      simp only [Option.some.injEq] at hf
      subst hf
      constructor
      · rw [writeByte_other _ _ _ _ (by omega)]; rfl
      · rw [writeByte_other _ _ _ _ (by omega)]; rfl
  | some g =>
    obtain ⟨hg0, hg1⟩ := hdev g hd
    refine ⟨?_, ?_, ?_, ?_⟩ <;>
      simp only [Sys.createConfiguration, Sys.descriptorPtr, hd]
    · exact hch
    · intro c hc o ho
      rcases List.mem_append.mp hc with hold | hnew
      · exact hconf c hold o ho
      · simp only [List.mem_singleton] at hnew
        rw [hnew] at ho
        simp at ho
    · intro c hc i hi
      rcases List.mem_append.mp hc with hold | hnew
      · exact hitf c hold i hi
      · simp only [List.mem_singleton] at hnew
        rw [hnew] at hi
        simp at hi
    · intro f hf
      simp only [Option.some.injEq] at hf
      subst hf
      constructor
      · rw [writeByte_other _ _ _ _ (by omega)]; exact hg0
      · rw [writeByte_other _ _ _ _ (by omega)]; exact hg1

theorem inv_writeArena_bump (s : Sys) (starts : List Nat) (o v : Nat)
    (hinv : SysInv s starts) (ho : o ∈ starts) :
    SysInv (s.writeArena (o + 4) v) starts := by
  obtain ⟨hch, hconf, hitf, hdev⟩ := hinv
  have hsafe := chain_bump_safe _ _ _ _ hch ho
  refine ⟨?_, ?_, ?_, ?_⟩
  · exact chain_write_nonhdr _ _ _ _ _ _ hch hsafe
  · intro c hc o2 ho2
    obtain ⟨hm, hv⟩ := hconf c hc o2 ho2
    refine ⟨hm, ?_⟩
    show writeByte s.dd.buf (o + 4) v o2 = 9
    rw [writeByte_other _ _ _ _ (Ne.symm (hsafe o2 hm).1)]
    exact hv
  · intro c hc i hi
    obtain ⟨hm, hv⟩ := hitf c hc i hi
    refine ⟨hm, ?_⟩
    show writeByte s.dd.buf (o + 4) v i.descOff = 9
    rw [writeByte_other _ _ _ _ (Ne.symm (hsafe i.descOff hm).1)]
    exact hv
  · exact hdev

theorem inv_extend (s : Sys) (starts : List Nat) (buf2 : Nat → Nat)
    (len tag : Nat) (hinv : SysInv s starts)
    (hlow : ∀ i, i < s.dd.length → buf2 i = s.dd.buf i)
    (h0 : buf2 s.dd.length = len) (h1 : buf2 (s.dd.length + 1) = tag)
    (hgood : goodHdr len tag) :
    SysInv { s with dd := ⟨buf2, s.dd.maxSize, s.dd.length + len⟩ }
      (starts ++ [s.dd.length]) := by
  obtain ⟨hch, hconf, hitf, hdev⟩ := hinv
  refine ⟨?_, ?_, ?_, ?_⟩
  · exact chain_extend _ _ _ _ _ _ hch hlow h0 h1 hgood
  · intro c hc o ho
    obtain ⟨hm, hv⟩ := hconf c hc o ho
    refine ⟨List.mem_append_left _ hm, ?_⟩
    show buf2 o = 9
    rw [hlow o (by have := chain_mem_lt_end _ _ _ _ hch hm; omega)]
    exact hv
  · intro c hc i hi
    obtain ⟨hm, hv⟩ := hitf c hc i hi
    refine ⟨List.mem_append_left _ hm, ?_⟩
    show buf2 i.descOff = 9
    rw [hlow _ (by have := chain_mem_lt_end _ _ _ _ hch hm; omega)]
    exact hv
  · exact hdev

theorem inv_setConf (s : Sys) (starts : List Nat) (ci : Nat)
    (c2 : USBConfigurationM) (hinv : SysInv s starts)
    (hcdesc : ∀ o, c2.descOff = some o → o ∈ starts ∧ s.dd.buf o = 9)
    (hcitf : ∀ i ∈ c2.interfaces, i.descOff ∈ starts ∧ s.dd.buf i.descOff = 9) :
    SysInv (s.setConf ci c2) starts := by
  obtain ⟨hch, hconf, hitf, hdev⟩ := hinv
  refine ⟨hch, ?_, ?_, hdev⟩
  · intro c hc o ho
    rcases List.mem_or_eq_of_mem_set hc with hold | rfl
    · exact hconf c hold o ho
    · exact hcdesc o ho
  · intro c hc i hi
    rcases List.mem_or_eq_of_mem_set hc with hold | rfl
    · exact hitf c hold i hi
    · exact hcitf i hi

theorem inv_confDescriptorOff (s : Sys) (starts : List Nat) (ci co : Nat)
    (t : Sys) (hinv : SysInv s starts)
    (h : s.confDescriptorOff ci = some (co, t)) :
    ∃ starts2, SysInv t starts2 ∧ co ∈ starts2 := by
  have hinv0 := hinv
  obtain ⟨hch, hconf, hitf, hdev⟩ := hinv
  unfold Sys.confDescriptorOff at h
  cases hg : s.getConf ci with
  | none => rw [hg] at h; exact absurd h (by simp)
  | some c =>
    simp only [hg] at h
    have hcmem : c ∈ s.dev.configurations := List.getElem?_mem hg
    cases hdo : c.descOff with
    | some o =>
      simp only [hdo, Option.some.injEq, Prod.mk.injEq] at h
      obtain ⟨hco, hts⟩ := h
      subst hco
      subst hts
      exact ⟨starts, hinv0, (hconf c hcmem _ hdo).1⟩
    | none =>
      simp only [hdo] at h
      cases hadd : s.dd.addDescriptor none 9 with
      | none =>
        simp only [hadd] at h
        exact absurd h (by simp)
      | some p =>
        obtain ⟨o, dd⟩ := p
        simp only [hadd] at h
        obtain ⟨ho, hbuf, hlen, hmax⟩ := addDescriptor_none9 _ _ _ hadd
        rw [ho, hbuf, hlen, hmax] at h
        simp only [Option.some.injEq, Prod.mk.injEq] at h
        obtain ⟨hco, ht⟩ := h
        have hx := inv_extend s starts
          (confRecordFill s.dd.buf s.dd.length c.id) 9 2 hinv0
          (fun i hi => confRecordFill_low _ _ _ _ hi)
          (confRecordFill_at0 _ _ _) (confRecordFill_at1 _ _ _)
          (Or.inl ⟨rfl, rfl⟩)
        refine ⟨starts ++ [s.dd.length], ?_, ?_⟩
        · rw [← ht]
          apply inv_setConf _ _ _ _ hx
          · intro o2 ho2
            simp only [Option.some.injEq] at ho2
            subst ho2
            constructor
            · exact List.mem_append_right _ (List.mem_singleton.mpr rfl)
            · show confRecordFill s.dd.buf s.dd.length c.id s.dd.length = 9
              exact confRecordFill_at0 _ _ _
          · intro i hi
            obtain ⟨hm, hv⟩ := hitf c hcmem i hi
            refine ⟨List.mem_append_left _ hm, ?_⟩
            show confRecordFill s.dd.buf s.dd.length c.id i.descOff = 9
            rw [confRecordFill_low _ _ _ _
              (by have := chain_mem_lt_end _ _ _ _ hch hm; omega)]
            exact hv
        · rw [← hco]
          exact List.mem_append_right _ (List.mem_singleton.mpr rfl)

end TinyUsb

namespace TinyUsb

theorem inv_extend_itf (s : Sys) (starts : List Nat) (num : Nat)
    (hinv : SysInv s starts) :
    SysInv { s with dd := ⟨itfRecordFill s.dd.buf s.dd.length num,
        s.dd.maxSize, s.dd.length + 9⟩ } (starts ++ [s.dd.length]) :=
  inv_extend s starts _ 9 4 hinv (fun i hi => itfRecordFill_low _ _ _ _ hi)
    (itfRecordFill_at0 _ _ _) (itfRecordFill_at1 _ _ _)
    (Or.inr (Or.inl ⟨rfl, rfl⟩))

theorem inv_newEndpointRecord (s : Sys) (starts : List Nat) (num : Nat)
    (isInput : Bool) (xfer : Nat) (eo : Nat) (t : Sys)
    (hinv : SysInv s starts)
    (h : s.newEndpointRecord num isInput xfer = some (eo, t)) :
    SysInv t (starts ++ [s.dd.length]) ∧ eo = s.dd.length ∧
      t.dev = s.dev ∧ t.strings = s.strings ∧
      (∀ i, i < s.dd.length → t.dd.buf i = s.dd.buf i) ∧
      t.dd.length = s.dd.length + 7 := by
  obtain ⟨heo, ht⟩ := newEndpointRecord_spec _ _ _ _ _ _ h
  subst ht
  refine ⟨?_, heo, rfl, rfl, ?_, rfl⟩
  · exact inv_extend s starts _ 7 5 hinv
      (fun i hi => epRecordFill_low _ _ _ _ _ hi)
      (epRecordFill_at0 _ _ _ _) (epRecordFill_at1 _ _ _ _)
      (Or.inr (Or.inr ⟨rfl, rfl⟩))
  · intro i hi
    exact epRecordFill_low _ _ _ _ _ hi

theorem inv_createInterface (s : Sys) (starts : List Nat) (ci : Nat) (t : Sys)
    (hinv : SysInv s starts) (h : s.createInterface ci = some t) :
    ∃ starts2, SysInv t starts2 := by
  unfold Sys.createInterface at h
  split at h
  · exact absurd h (by simp)
  next co s1 hcd =>
    obtain ⟨S1, hinv1, hco⟩ := inv_confDescriptorOff _ _ _ _ _ hinv hcd
    have hinv2 : SysInv (s1.bumpArena (co + 4)) S1 :=
      inv_writeArena_bump _ _ _ _ hinv1 hco
    simp only [] at h
    split at h
    · exact absurd h (by simp)
    next c hg =>
      split at h
      · exact absurd h (by simp)
      next o dd hadd =>
        obtain ⟨ho, hbuf, hlen, hmax⟩ := addDescriptor_none9 _ _ _ hadd
        rw [ho, hbuf, hlen, hmax] at h
        have hinv3 := inv_extend_itf _ _ c.interfaces.length hinv2
        split at h
        · exact absurd h (by simp)
        next eo s4 hne =>
          obtain ⟨hinv4, heo, hdev4, hstr4, hlow4, hlen4⟩ :=
            inv_newEndpointRecord _ _ _ _ _ _ _ hinv3 hne
          have hinv5 := inv_writeArena_bump _ _
            ((s1.bumpArena (co + 4)).dd.length)
            (s4.dd.buf ((s1.bumpArena (co + 4)).dd.length + 4) + 1) hinv4 (by simp)
          split at h
          · exact absurd h (by simp)
          next c2 hg2 =>
            simp only [Option.some.injEq] at h
            subst h
            obtain ⟨hch5, hconf5, hitf5, hdev5⟩ := hinv5
            refine ⟨(S1 ++ [(s1.bumpArena (co + 4)).dd.length]) ++
              [({ s1.bumpArena (co + 4) with
                  dd := ⟨itfRecordFill (s1.bumpArena (co + 4)).dd.buf
                    (s1.bumpArena (co + 4)).dd.length c.interfaces.length,
                    (s1.bumpArena (co + 4)).dd.maxSize,
                    (s1.bumpArena (co + 4)).dd.length + 9⟩ } : Sys).dd.length],
              ?_⟩
            apply inv_setConf _ _ _ _ ⟨hch5, hconf5, hitf5, hdev5⟩
            · intro o2 ho2
              have hc2mem := List.getElem?_mem hg2
              exact hconf5 c2 hc2mem o2 ho2
            · intro i hi
              rcases List.mem_append.mp hi with hold | hnewi
              · have hc2mem := List.getElem?_mem hg2
                exact hitf5 c2 hc2mem i hold
              · simp only [List.mem_singleton] at hnewi
                subst hnewi
                constructor
                · simp
                · show writeByte s4.dd.buf ((s1.bumpArena (co + 4)).dd.length + 4)
                    (s4.dd.buf ((s1.bumpArena (co + 4)).dd.length + 4) + 1)
                    ((s1.bumpArena (co + 4)).dd.length) = 9
                  rw [writeByte_other _ _ _ _ (by omega)]
                  rw [hlow4 _ (by
                    show (s1.bumpArena (co + 4)).dd.length <
                      (s1.bumpArena (co + 4)).dd.length + 9
                    omega)]
                  exact itfRecordFill_at0 _ _ _


theorem inv_createEndpoint (s : Sys) (starts : List Nat) (ci ii : Nat)
    (isInput : Bool) (xfer : Nat) (t : Sys)
    (hinv : SysInv s starts) (h : s.createEndpoint ci ii isInput xfer = some t) :
    ∃ starts2, SysInv t starts2 := by
  unfold Sys.createEndpoint at h
  split at h
  · exact absurd h (by simp)
  next c hg =>
    split at h
    · exact absurd h (by simp)
    next itf hgi =>
      split at h
      · exact absurd h (by simp)
      next eo t1 hne =>
        obtain ⟨hinv1, heo, hdev1, hstr1, hlow1, hlen1⟩ :=
          inv_newEndpointRecord _ _ _ _ _ _ _ hinv hne
        have hcmem : c ∈ s.dev.configurations := List.getElem?_mem hg
        have himem : itf ∈ c.interfaces := List.getElem?_mem hgi
        have hcmem1 : c ∈ t1.dev.configurations := by rw [hdev1]; exact hcmem
        have hitfmem : itf.descOff ∈ starts ++ [s.dd.length] ∧
            t1.dd.buf itf.descOff = 9 := hinv1.2.2.1 c hcmem1 itf himem
        have hinv2 := inv_writeArena_bump _ _ itf.descOff
          (t1.dd.buf (itf.descOff + 4) + 1) hinv1 hitfmem.1
        simp only [] at h
        split at h
        · exact absurd h (by simp)
        next c2 hg2 =>
          simp only [Option.some.injEq] at h
          subst h
          obtain ⟨hch2, hconf2, hitf2, hdev2⟩ := hinv2
          refine ⟨starts ++ [s.dd.length], ?_⟩
          apply inv_setConf _ _ _ _ ⟨hch2, hconf2, hitf2, hdev2⟩
          · intro o2 ho2
            exact hconf2 c2 (List.getElem?_mem hg2) o2 ho2
          · intro i hi
            rcases List.mem_or_eq_of_mem_set hi with hold | hnewi
            · exact hitf2 c2 (List.getElem?_mem hg2) i hold
            · subst hnewi
              have := hitf2 c2 (List.getElem?_mem hg2)
              have hc2mem : c ∈ (t1.bumpArena (itf.descOff + 4)).dev.configurations :=
                hcmem1
              exact hitf2 c hc2mem itf himem
end TinyUsb

namespace TinyUsb

theorem inv_applyStep (s : Sys) (starts : List Nat) (st : BuildStep) (t : Sys)
    (hinv : SysInv s starts) (h : s.applyStep st = some t) :
    ∃ starts2, SysInv t starts2 := by
  cases st with
  | mkConfiguration =>
    simp only [Sys.applyStep, Option.some.injEq] at h
    subst h
    exact ⟨starts, inv_createConfiguration _ _ hinv⟩
  | mkInterface ci => exact inv_createInterface _ _ _ _ hinv h
  | mkEndpoint ci ii isInput xfer => exact inv_createEndpoint _ _ _ _ _ _ _ hinv h

theorem inv_applySteps (l : List BuildStep) :
    ∀ (s : Sys) (starts : List Nat) (t : Sys), SysInv s starts →
      s.applySteps l = some t → ∃ starts2, SysInv t starts2 := by
  induction l with
  | nil =>
    intro s starts t hinv h
    simp only [Sys.applySteps, Option.some.injEq] at h
    subst h
    exact ⟨starts, hinv⟩
  | cons st rest ih =>
    intro s starts t hinv h
    unfold Sys.applySteps at h
    cases hstep : s.applyStep st with
    | none => rw [hstep] at h; exact absurd h (by simp)
    | some u =>
      rw [hstep] at h
      obtain ⟨starts2, hinv2⟩ := inv_applyStep _ _ _ _ hinv hstep
      exact ih u starts2 t hinv2 h

theorem sysInv_init (n : Nat) : SysInv (initSys n) [] := by
  refine ⟨Chain.nil 0, ?_, ?_, ?_⟩
  · intro c hc o ho
    exact absurd hc (List.not_mem_nil c)
  · intro c hc i hi
    exact absurd hc (List.not_mem_nil c)
  · intro f hf
    exact absurd hf (by simp [initSys])

/-- C7 counterexample: constructing the Device record
(`USBDevice::descriptor_ptr()`, and likewise `createConfiguration()`)
appends nothing to the descriptor arena — the device record is a separate
heap object and the Configuration record is only materialized on the first
field access — contradicting the claim that constructing each node type
appends a record to the arena. -/
theorem c7_counterexample :
    ((initSys 256).descriptorPtr).dev.deviceDesc = some deviceDescriptorDefault ∧
    ((initSys 256).descriptorPtr).dd.length = 0 ∧
    ((initSys 256).createConfiguration).dd.length = 0 ∧
    deviceDescriptorDefault 0 = 18 := ⟨rfl, rfl, rfl, rfl⟩

/-- C7 (amended): for every sequence of builder steps from a fresh state
that does not fail, the used arena is a back-to-back chain of records whose
start offsets each satisfy bytes[offset] == record_length and
bytes[offset+1] == type_tag with the fixed (length, tag) pairs (9, 0x02)
for Configuration, (9, 0x04) for Interface and (7, 0x05) for Endpoint;
Interface and Endpoint constructions append their records, the
Configuration record is appended lazily on first field access, and the
18-byte/tag 0x01 Device record lives outside the arena (its bytes 0 and 1
read 18 and 0x01). -/
theorem c7_tlv_chain (n : Nat) (steps : List BuildStep) (t : Sys)
    (h : (initSys n).applySteps steps = some t) :
    (∃ starts, Chain t.dd.buf 0 starts t.dd.length) ∧
    (∀ f, t.dev.deviceDesc = some f → f 0 = 18 ∧ f 1 = 0x01) := by
  obtain ⟨starts2, hch, hconf, hitf, hdev⟩ :=
    inv_applySteps steps (initSys n) [] t (sysInv_init n) h
  exact ⟨⟨starts2, hch⟩, hdev⟩

/-- C7 witness: one configuration, one interface, one extra bulk-in
endpoint on a 256-byte arena. -/
theorem c7_tlv_chain_witness :
    (∃ starts, Chain c7State.dd.buf 0 starts c7State.dd.length) ∧
    (∀ f, c7State.dev.deviceDesc = some f → f 0 = 18 ∧ f 1 = 0x01) :=
  c7_tlv_chain 256 c7Steps c7State rfl

end TinyUsb
